import Mathlib

/-!
Verification of the Helpdesk app (src/app.py).

This file shallowly embeds the parts of `app.py` that the specification's
claims are about:

* the retry/backoff decorator `retry(max_attempts=5, base=0.5, cap=8.0)`
  (app.py lines 51-66),
* the SLA computation on the write path (`round((end-start).total_seconds()
  / 3600.0, 2)`, lines 271-276) and on the read path
  (`.dt.total_seconds() / 3600.0` under the `has_both` mask, lines 149-155),
* `local_to_utc_iso` (lines 170-173) together with the IANA tzdata rules
  for the `Asia/Ho_Chi_Minh` zone that `ZoneInfo` consults.

Modelling conventions: Python floats are modelled as exact rationals (all
delay arithmetic in the source is `*2`, `min`, `+`, which is exact on the
small decimal values involved); exceptions are modelled with `Except`;
the wrapped remote operation is modelled as a function from the attempt
ordinal (1-based, as in the source's `range(1, max_attempts + 1)`) to an
`Except` outcome; the stream of `random.random()` draws is a function from
the attempt ordinal to a rational in `[0, 1)`.
-/

/-- One observable event of a run of the retry wrapper: the `i`-th invocation
of the wrapped operation together with its outcome, or a `time.sleep` of a
given duration (in seconds). -/
inductive Ev (ε α : Type) where
  | att (i : ℤ) (r : Except ε α)
  | wait (d : ℚ)

/-- The result of running the wrapper: the value produced for the caller
(`none` models Python's implicit `return None` when the `for` loop body never
runs, `some (Except.ok v)` a returned result, `some (Except.error e)` a
propagated exception), plus the ordered trace of events. -/
structure RunResult (ε α : Type) where
  outcome : Option (Except ε α)
  trace : List (Ev ε α)

/-- The hard-coded jitter coefficient of `app.py` line 63:
`time.sleep(delay + random.random() * 0.2)`. -/
def jitterCoeff : ℚ := 2 / 10

/-- The loop body of `inner` in `app.py` lines 56-64, one recursive step per
iteration of `for attempt in range(1, max_attempts + 1)`.  `fuel` counts the
iterations the `range` has left (callers pass `max_attempts.toNat`, the length
of `range(1, max_attempts + 1)`); `attempt` and `delay` are the Python locals
of the same names.  Branches:

* `op attempt = ok v` — line 59 `return fn(*args, **kwargs)` succeeds;
* failure with `attempt = max_attempts` — lines 61-62 re-`raise` the caught
  exception object itself;
* failure otherwise — line 63 sleeps `delay + random.random() * 0.2` and
  line 64 updates `delay = min(delay * 2, cap)`;
* `fuel = 0` — the loop has exhausted (or never ran) and `inner` falls off
  the end, returning `None`. -/
def retryInner (op : ℤ → Except ε α) (rand : ℤ → ℚ) (max_attempts : ℤ) (cap : ℚ) :
    ℕ → ℤ → ℚ → RunResult ε α
  | 0, _, _ => ⟨none, []⟩
  | fuel+1, attempt, delay =>
    match op attempt with
    | Except.ok v => ⟨some (Except.ok v), [Ev.att attempt (Except.ok v)]⟩
    | Except.error e =>
      if attempt = max_attempts then
        ⟨some (Except.error e), [Ev.att attempt (Except.error e)]⟩
      else
        let w := delay + rand attempt * jitterCoeff
        let rest := retryInner op rand max_attempts cap fuel (attempt + 1)
          (min (delay * 2) cap)
        ⟨rest.outcome, Ev.att attempt (Except.error e) :: Ev.wait w :: rest.trace⟩

/-- A call of a function wrapped by `retry(max_attempts, base, cap)`
(app.py lines 51-66): `delay` starts at `base` (line 56) and the loop starts
at `attempt = 1` (line 57). -/
def retry (max_attempts : ℤ) (base cap : ℚ) (op : ℤ → Except ε α)
    (rand : ℤ → ℚ) : RunResult ε α :=
  retryInner op rand max_attempts cap max_attempts.toNat 1 base

/-- Default `max_attempts` of the decorator (app.py line 51). -/
def retryDefaultMaxAttempts : ℤ := 5

/-- Default `base` of the decorator (app.py line 51), 0.5 seconds. -/
def retryDefaultBase : ℚ := 5 / 10

/-- Default `cap` of the decorator (app.py line 51), 8.0 seconds. -/
def retryDefaultCap : ℚ := 8

/-- Is the event an invocation of the wrapped operation? -/
def Ev.isAtt : Ev ε α → Bool
  | .att _ _ => true
  | .wait _ => false

/-- Extract the duration of a sleep event. -/
def Ev.waitVal : Ev ε α → Option ℚ
  | .wait d => some d
  | .att _ _ => none

/-- Number of invocation events in a trace. -/
def attCount (t : List (Ev ε α)) : ℕ := (t.filter Ev.isAtt).length

/-- The sleep durations of a trace, in order. -/
def waitList (t : List (Ev ε α)) : List ℚ := t.filterMap Ev.waitVal

/-- Number of invocations of the wrapped operation in a run. -/
def callsOf (r : RunResult ε α) : ℕ := attCount r.trace

/-- The sleeps of a run, in order, as durations in seconds. -/
def waitsOf (r : RunResult ε α) : List ℚ := waitList r.trace

/-- The pre-jitter backoff schedule induced by lines 56 and 64 of `app.py`:
`schedDelay base cap n` is the value of the Python local `delay` at the start
of iteration `n + 1`, i.e. the scheduled delay of the `n`-th sleep (0-based). -/
def schedDelay (base cap : ℚ) : ℕ → ℚ
  | 0 => base
  | n + 1 => min (schedDelay base cap n * 2) cap

/-- Modelled from the spec: the `jitter_max` configuration option of §6
(absent from the source's `retry(max_attempts=5, base=0.5, cap=8.0)`
signature) together with the §8 jitter property "each actual wait lies in
`[scheduled_delay, scheduled_delay + jitter_max)`". -/
def waitWithinJitter (jitter_max sched w : ℚ) : Prop :=
  sched ≤ w ∧ w < sched + jitter_max

/-- A remote operation that fails on every attempt, its `i`-th failure being
the (distinguishable) error value `i`. -/
def opFailW : ℤ → Except ℤ Unit := fun i => Except.error i

/-- A remote operation that fails on attempt 1 and succeeds on attempt 2. -/
def opOkAt2W : ℤ → Except ℤ String :=
  fun i => if i = 2 then Except.ok "ok" else Except.error i

/-- A remote operation that succeeds immediately. -/
def opOkW : ℤ → Except ℤ String := fun _ => Except.ok "ok"

/-- A degenerate jitter source: `random.random()` always drawing 0. -/
def randZeroW : ℤ → ℚ := fun _ => 0

/-- A jitter source: `random.random()` always drawing 1/2. -/
def randHalfW : ℤ → ℚ := fun _ => 1 / 2

/-- Python's built-in `round` to an integer on an exact rational value:
round half to even (banker's rounding). -/
def roundHalfEven (y : ℚ) : ℤ :=
  if y - ⌊y⌋ < 1/2 then ⌊y⌋
  else if 1/2 < y - ⌊y⌋ then ⌊y⌋ + 1
  else if ⌊y⌋ % 2 = 0 then ⌊y⌋ else ⌊y⌋ + 1

/-- `round(x, 2)` of app.py line 274, on exact rationals. -/
def pythonRound2 (x : ℚ) : ℚ := (roundHalfEven (x * 100) : ℚ) / 100

/-- Write path of the SLA cell (app.py lines 271-276): with a completion
timestamp present, `sla_gio = round((end - start).total_seconds() / 3600.0,
2)`; otherwise the empty string is written (modelled `none`).  Timestamps
are epoch seconds; `tg_ps` (the start) is always present on this path. -/
def slaStored (tg_done : Option ℤ) (tg_ps : ℤ) : Option ℚ :=
  match tg_done with
  | none => none
  | some e => some (pythonRound2 (((e - tg_ps : ℤ) : ℚ) / 3600))

/-- Read path of the SLA column (app.py lines 149-155): under the `has_both`
mask the column is recomputed as `(end - start).dt.total_seconds() / 3600.0`;
rows missing either timestamp keep their numeric-coerced stored value. -/
def slaDerived (start done : Option ℤ) (stored : Option ℚ) : Option ℚ :=
  match start, done with
  | some s, some e => some (((e - s : ℤ) : ℚ) / 3600)
  | _, _ => stored

/-- A calendar date as passed to `local_to_utc_iso` (a `datetime.date`;
Python years range over 1..9999). -/
structure PDate where
  year : ℕ
  month : ℕ
  day : ℕ
deriving DecidableEq

/-- A wall-clock time as passed to `local_to_utc_iso` (a `datetime.time`;
the source form uses minute granularity, seconds kept for generality). -/
structure PTime where
  hour : ℕ
  minute : ℕ
  second : ℕ
deriving DecidableEq

/-- Gregorian leap year. -/
def isLeap (y : ℕ) : Bool := (y % 4 = 0 && y % 100 ≠ 0) || y % 400 = 0

/-- Days in a month of the proleptic Gregorian calendar. -/
def daysInMonth (y m : ℕ) : ℕ :=
  if m = 2 then (if isLeap y then 29 else 28)
  else if m = 4 ∨ m = 6 ∨ m = 9 ∨ m = 11 then 30 else 31

/-- A date `datetime.date` accepts. -/
def PDate.valid (d : PDate) : Prop :=
  1 ≤ d.year ∧ d.year ≤ 9999 ∧ 1 ≤ d.month ∧ d.month ≤ 12 ∧
    1 ≤ d.day ∧ d.day ≤ daysInMonth d.year d.month

/-- A time `datetime.time` accepts (whole seconds). -/
def PTime.valid (t : PTime) : Prop :=
  t.hour < 24 ∧ t.minute < 60 ∧ t.second < 60

instance (d : PDate) : Decidable d.valid := by
  unfold PDate.valid; infer_instance

instance (t : PTime) : Decidable t.valid := by
  unfold PTime.valid; infer_instance

/-- Days from 1970-01-01 of a Gregorian calendar date (the standard
days-from-civil algorithm; all intermediate divisions are on non-negative
numbers, as Python years are ≥ 1). -/
def daysFromCivil (y m d : ℕ) : ℤ :=
  let y' := if m ≤ 2 then y - 1 else y
  let era := y' / 400
  let yoe := y' % 400
  let mp := (m + 9) % 12
  let doy := (153 * mp + 2) / 5 + d - 1
  let doe := yoe * 365 + yoe / 4 - yoe / 100 + doy
  (era : ℤ) * 146097 + (doe : ℤ) - 719468

/-- Inverse of `daysFromCivil` (the standard civil-from-days algorithm).
The `ℤ` divisions here are floor divisions (divisors are positive). -/
def civilFromDays (z : ℤ) : PDate :=
  let z' := z + 719468
  let era := z' / 146097
  let doe := z' - era * 146097
  let yoe := (doe - doe / 1460 + doe / 36524 - doe / 146096) / 365
  let doy := doe - (365 * yoe + yoe / 4 - yoe / 100)
  let mp := (5 * doy + 2) / 153
  let dd := doy - (153 * mp + 2) / 5 + 1
  let mm := if mp < 10 then mp + 3 else mp - 9
  let yy := yoe + era * 400 + (if mm ≤ 2 then 1 else 0)
  ⟨yy.toNat, mm.toNat, dd.toNat⟩

/-- Local wall-clock seconds since the epoch of a date-time pair. -/
def wallSecs (d : PDate) (t : PTime) : ℤ :=
  daysFromCivil d.year d.month d.day * 86400
    + ((t.hour * 3600 + t.minute * 60 + t.second : ℕ) : ℤ)

/-- Wall-clock seconds back to calendar date and time of day. -/
def secsToWall (w : ℤ) : PDate × PTime :=
  let days := w / 86400
  let sod := (w % 86400).toNat
  (civilFromDays days, ⟨sod / 3600, (sod % 3600) / 60, sod % 60⟩)

/-- UTC offset (seconds east of UTC) of `Asia/Ho_Chi_Minh` at a UTC instant
`u` in epoch seconds, from the IANA tzdata transition list (`zdump -v
Asia/Ho_Chi_Minh` on the host tz database): local mean time +7:06:30 until
1911, then alternating +07/+08/+09 through the 1940s-1950s, fixed +07:00
since 1975-06-12 16:00Z. -/
def vnOffsetAtUtc (u : ℤ) : ℤ :=
  if u < -1851577590 then 25590
  else if u < -852105600 then 25200
  else if u < -782643600 then 28800
  else if u < -767869200 then 32400
  else if u < -718095600 then 25200
  else if u < -457776000 then 28800
  else if u < -315648000 then 25200
  else if u < 171820800 then 28800
  else 25200

/-- UTC offset Python's `zoneinfo` assigns (default `fold=0`, PEP 495) to a
naive local wall clock `w` (local seconds since epoch): at a transition from
offset `p` to `q` at UTC instant `T`, the new offset governs wall clocks from
`T + max p q` on — so wall times inside a forward gap keep the pre-gap
offset, and repeated wall times of a backward transition get their earlier
interpretation. -/
def vnOffsetAtWall (w : ℤ) : ℤ :=
  if w < -1851577590 + 25590 then 25590
  else if w < -852105600 + 28800 then 25200
  else if w < -782643600 + 32400 then 28800
  else if w < -767869200 + 32400 then 32400
  else if w < -718095600 + 28800 then 25200
  else if w < -457776000 + 28800 then 28800
  else if w < -315648000 + 28800 then 25200
  else if w < 171820800 + 28800 then 28800
  else 25200

/-- `local_to_utc_iso` (app.py lines 170-173) modulo the ISO-string layer:
`datetime(d.year, d.month, d.day, t.hour, t.minute, t.second,
tzinfo=VN_TZ).astimezone(timezone.utc)` as an epoch-seconds instant.
(`isoformat` / `fromisoformat` are an injective encoding of the aware
whole-second instant, so the string codec is dropped from the model.) -/
def local_to_utc (d : PDate) (t : PTime) : ℤ :=
  wallSecs d t - vnOffsetAtWall (wallSecs d t)

/-- Converting a UTC instant back to an `Asia/Ho_Chi_Minh` wall clock (the
direction of `fromisoformat` + `tz_convert(VN_TZ)`): date and time. -/
def utcToVnWall (u : ℤ) : PDate × PTime :=
  secsToWall (u + vnOffsetAtUtc u)

@[simp]
theorem attCount_nil : attCount ([] : List (Ev ε α)) = 0 := rfl

@[simp]
theorem attCount_att (i : ℤ) (r : Except ε α) (t : List (Ev ε α)) :
    attCount (Ev.att i r :: t) = attCount t + 1 := by
  simp [attCount, Ev.isAtt, List.filter_cons]

@[simp]
theorem attCount_wait (d : ℚ) (t : List (Ev ε α)) :
    attCount (Ev.wait d :: t) = attCount t := by
  simp [attCount, Ev.isAtt, List.filter_cons]

@[simp]
theorem waitList_nil : waitList ([] : List (Ev ε α)) = [] := rfl

@[simp]
theorem waitList_att (i : ℤ) (r : Except ε α) (t : List (Ev ε α)) :
    waitList (Ev.att i r :: t) = waitList t := by
  simp [waitList, Ev.waitVal, List.filterMap_cons]

@[simp]
theorem waitList_wait (d : ℚ) (t : List (Ev ε α)) :
    waitList (Ev.wait d :: t) = d :: waitList t := by
  simp [waitList, Ev.waitVal, List.filterMap_cons]

/-- Unfolding: the exhausted loop. -/
theorem retryInner_zero (op : ℤ → Except ε α) (rand : ℤ → ℚ) (N : ℤ) (cap : ℚ)
    (attempt : ℤ) (delay : ℚ) :
    retryInner op rand N cap 0 attempt delay = ⟨none, []⟩ := rfl

/-- Unfolding: a successful attempt returns at once (app.py line 59). -/
theorem retryInner_ok (op : ℤ → Except ε α) (rand : ℤ → ℚ) (N : ℤ) (cap : ℚ)
    (f : ℕ) (attempt : ℤ) (delay : ℚ) (v : α) (hop : op attempt = Except.ok v) :
    retryInner op rand N cap (f + 1) attempt delay
      = ⟨some (Except.ok v), [Ev.att attempt (Except.ok v)]⟩ := by
  simp [retryInner, hop]

/-- Unfolding: a failure on the final attempt re-raises it (app.py lines 61-62). -/
theorem retryInner_lastfail (op : ℤ → Except ε α) (rand : ℤ → ℚ) (N : ℤ) (cap : ℚ)
    (f : ℕ) (attempt : ℤ) (delay : ℚ) (e : ε) (hop : op attempt = Except.error e)
    (hfin : attempt = N) :
    retryInner op rand N cap (f + 1) attempt delay
      = ⟨some (Except.error e), [Ev.att attempt (Except.error e)]⟩ := by
  subst hfin
  simp [retryInner, hop]

/-- Unfolding: a failure on a non-final attempt sleeps and retries with the
doubled, capped delay (app.py lines 63-64). -/
theorem retryInner_stepfail (op : ℤ → Except ε α) (rand : ℤ → ℚ) (N : ℤ) (cap : ℚ)
    (f : ℕ) (attempt : ℤ) (delay : ℚ) (e : ε) (hop : op attempt = Except.error e)
    (hfin : ¬ attempt = N) :
    retryInner op rand N cap (f + 1) attempt delay
      = ⟨(retryInner op rand N cap f (attempt + 1) (min (delay * 2) cap)).outcome,
         Ev.att attempt (Except.error e)
           :: Ev.wait (delay + rand attempt * jitterCoeff)
           :: (retryInner op rand N cap f (attempt + 1) (min (delay * 2) cap)).trace⟩ := by
  simp [retryInner, hop, hfin]

@[simp]
theorem callsOf_mk (o : Option (Except ε α)) (t : List (Ev ε α)) :
    callsOf (⟨o, t⟩ : RunResult ε α) = attCount t := rfl

@[simp]
theorem waitsOf_mk (o : Option (Except ε α)) (t : List (Ev ε α)) :
    waitsOf (⟨o, t⟩ : RunResult ε α) = waitList t := rfl

/-- An always-failing window: if every attempt from `attempt` to `N` fails,
the run raises the `N`-th failure, makes one call per remaining iteration,
and sleeps once per call except the last. -/
theorem retryInner_allfail (op : ℤ → Except ε α) (err : ℤ → ε) (rand : ℤ → ℚ)
    (N : ℤ) (cap : ℚ) :
    ∀ (fuel : ℕ) (attempt : ℤ) (delay : ℚ), 1 ≤ fuel →
      attempt + (fuel : ℤ) = N + 1 →
      (∀ i : ℤ, attempt ≤ i → i ≤ N → op i = Except.error (err i)) →
      (retryInner op rand N cap fuel attempt delay).outcome
          = some (Except.error (err N)) ∧
        callsOf (retryInner op rand N cap fuel attempt delay) = fuel ∧
        (waitsOf (retryInner op rand N cap fuel attempt delay)).length = fuel - 1 := by
  intro fuel
  induction fuel with
  | zero => intro attempt delay h; exact absurd h (by omega)
  | succ f ih =>
    intro attempt delay _ hinv hfail
    have hop : op attempt = Except.error (err attempt) :=
      hfail attempt le_rfl (by omega)
    by_cases hfin : attempt = N
    · have hf : f = 0 := by omega
      rw [retryInner_lastfail op rand N cap f attempt delay _ hop hfin]
      subst hfin
      subst hf
      simp
    · have hf : 1 ≤ f := by omega
      obtain ⟨ih1, ih2, ih3⟩ := ih (attempt + 1) (min (delay * 2) cap) hf
        (by omega) (fun i hi1 hi2 => hfail i (by omega) hi2)
      rw [retryInner_stepfail op rand N cap f attempt delay _ hop hfin]
      refine ⟨ih1, ?_, ?_⟩
      · simp only [callsOf_mk, attCount_att, attCount_wait]
        simp only [callsOf] at ih2
        omega
      · simp only [waitsOf_mk, waitList_att, waitList_wait, List.length_cons]
        simp only [waitsOf] at ih3
        omega

/-- A window that succeeds on attempt `k` after failures: the run returns
that success and makes exactly `k - attempt + 1` calls. -/
theorem retryInner_firstok (op : ℤ → Except ε α) (rand : ℤ → ℚ)
    (N : ℤ) (cap : ℚ) (k : ℤ) (v : α) :
    ∀ (fuel : ℕ) (attempt : ℤ) (delay : ℚ),
      attempt ≤ k → k ≤ N → attempt + (fuel : ℤ) = N + 1 →
      (∀ i : ℤ, attempt ≤ i → i < k → ∃ e, op i = Except.error e) →
      op k = Except.ok v →
      (retryInner op rand N cap fuel attempt delay).outcome = some (Except.ok v) ∧
        (callsOf (retryInner op rand N cap fuel attempt delay) : ℤ)
          = k - attempt + 1 := by
  intro fuel
  induction fuel with
  | zero => intro attempt delay h1 h2 h3 _ _; exfalso; omega
  | succ f ih =>
    intro attempt delay hak hkN hinv hpre hok
    by_cases heq : attempt = k
    · have hok' : op attempt = Except.ok v := by rw [heq]; exact hok
      rw [retryInner_ok op rand N cap f attempt delay v hok']
      refine ⟨rfl, ?_⟩
      simp only [callsOf_mk, attCount_att, attCount_nil]
      omega
    · have hlt : attempt < k := lt_of_le_of_ne hak heq
      obtain ⟨e, he⟩ := hpre attempt le_rfl hlt
      have hfin : ¬ attempt = N := by omega
      rw [retryInner_stepfail op rand N cap f attempt delay e he hfin]
      obtain ⟨ih1, ih2⟩ := ih (attempt + 1) (min (delay * 2) cap) (by omega) hkN
        (by omega) (fun i hi1 hi2 => hpre i (by omega) hi2) hok
      refine ⟨ih1, ?_⟩
      simp only [callsOf_mk, attCount_att, attCount_wait]
      simp only [callsOf] at ih2
      omega

/-- Converse direction: whenever a run surfaces a failure, that failure is
exactly the one produced by attempt `N`, and all `fuel` iterations ran. -/
theorem retryInner_error_from_last (op : ℤ → Except ε α) (rand : ℤ → ℚ)
    (N : ℤ) (cap : ℚ) (e : ε) :
    ∀ (fuel : ℕ) (attempt : ℤ) (delay : ℚ),
      attempt + (fuel : ℤ) = N + 1 →
      (retryInner op rand N cap fuel attempt delay).outcome
          = some (Except.error e) →
      op N = Except.error e ∧
        callsOf (retryInner op rand N cap fuel attempt delay) = fuel := by
  intro fuel
  induction fuel with
  | zero =>
    intro attempt delay _ hout
    rw [retryInner_zero] at hout
    simp at hout
  | succ f ih =>
    intro attempt delay hinv hout
    rcases hop : op attempt with e' | v
    · by_cases hfin : attempt = N
      · rw [retryInner_lastfail op rand N cap f attempt delay e' hop hfin] at hout ⊢
        simp only [Option.some.injEq, Except.error.injEq] at hout
        subst hout
        subst hfin
        refine ⟨hop, ?_⟩
        simp only [callsOf_mk, attCount_att, attCount_nil]
        omega
      · rw [retryInner_stepfail op rand N cap f attempt delay e' hop hfin] at hout ⊢
        obtain ⟨ih1, ih2⟩ := ih (attempt + 1) (min (delay * 2) cap) (by omega) hout
        refine ⟨ih1, ?_⟩
        simp only [callsOf_mk, attCount_att, attCount_wait]
        simp only [callsOf] at ih2
        omega
    · rw [retryInner_ok op rand N cap f attempt delay v hop] at hout
      simp at hout

/-- Any run with at least one iteration produces an outcome (the fall-through
`None` path needs `max_attempts < 1`). -/
theorem retryInner_isSome (op : ℤ → Except ε α) (rand : ℤ → ℚ)
    (N : ℤ) (cap : ℚ) :
    ∀ (fuel : ℕ) (attempt : ℤ) (delay : ℚ), 1 ≤ fuel →
      attempt + (fuel : ℤ) = N + 1 →
      ∃ res, (retryInner op rand N cap fuel attempt delay).outcome = some res := by
  intro fuel
  induction fuel with
  | zero => intro attempt delay h; exact absurd h (by omega)
  | succ f ih =>
    intro attempt delay _ hinv
    rcases hop : op attempt with e | v
    · by_cases hfin : attempt = N
      · rw [retryInner_lastfail op rand N cap f attempt delay e hop hfin]
        exact ⟨_, rfl⟩
      · have hf : 1 ≤ f := by omega
        rw [retryInner_stepfail op rand N cap f attempt delay e hop hfin]
        exact ih (attempt + 1) (min (delay * 2) cap) hf (by omega)
    · rw [retryInner_ok op rand N cap f attempt delay v hop]
      exact ⟨_, rfl⟩

/-- The first event of any run with at least one iteration is the invocation
of the first attempt: nothing (in particular no sleep) precedes it. -/
theorem retryInner_head (op : ℤ → Except ε α) (rand : ℤ → ℚ)
    (N : ℤ) (cap : ℚ) (fuel : ℕ) (attempt : ℤ) (delay : ℚ) (h : 1 ≤ fuel) :
    ∃ r, (retryInner op rand N cap fuel attempt delay).trace.head?
        = some (Ev.att attempt r) := by
  obtain ⟨f, rfl⟩ : ∃ f, fuel = f + 1 := ⟨fuel - 1, by omega⟩
  rcases hop : op attempt with e | v
  · by_cases hfin : attempt = N
    · rw [retryInner_lastfail op rand N cap f attempt delay e hop hfin]
      exact ⟨_, rfl⟩
    · rw [retryInner_stepfail op rand N cap f attempt delay e hop hfin]
      exact ⟨_, rfl⟩
  · rw [retryInner_ok op rand N cap f attempt delay v hop]
    exact ⟨_, rfl⟩

/-- The last event of any run with at least one iteration is an invocation of
the wrapped operation: no sleep follows the final attempt. -/
theorem retryInner_last (op : ℤ → Except ε α) (rand : ℤ → ℚ)
    (N : ℤ) (cap : ℚ) :
    ∀ (fuel : ℕ) (attempt : ℤ) (delay : ℚ), 1 ≤ fuel →
      attempt + (fuel : ℤ) = N + 1 →
      ∃ i r, (retryInner op rand N cap fuel attempt delay).trace.getLast?
          = some (Ev.att i r) := by
  intro fuel
  induction fuel with
  | zero => intro attempt delay h; exact absurd h (by omega)
  | succ f ih =>
    intro attempt delay _ hinv
    rcases hop : op attempt with e | v
    · by_cases hfin : attempt = N
      · rw [retryInner_lastfail op rand N cap f attempt delay e hop hfin]
        exact ⟨attempt, _, rfl⟩
      · have hf : 1 ≤ f := by omega
        obtain ⟨i, r, hir⟩ := ih (attempt + 1) (min (delay * 2) cap) hf (by omega)
        rw [retryInner_stepfail op rand N cap f attempt delay e hop hfin]
        refine ⟨i, r, ?_⟩
        rcases htr : (retryInner op rand N cap f (attempt + 1)
            (min (delay * 2) cap)).trace with _ | ⟨x, xs⟩
        · rw [htr] at hir; simp at hir
        · rw [htr] at hir
          simp only [List.getLast?_cons_cons]
          exact hir
    · rw [retryInner_ok op rand N cap f attempt delay v hop]
      exact ⟨attempt, _, rfl⟩

/-- Every sleep of a run follows the pre-jitter schedule: the `j`-th sleep
(0-based) lasts `schedDelay base cap j` plus the jitter of the draw consumed
at attempt `j + 1`.  Stated for an arbitrary window starting at attempt
`m + 1` with the delay the schedule assigns there. -/
theorem retryInner_waits_sched (op : ℤ → Except ε α) (rand : ℤ → ℚ)
    (N : ℤ) (b c : ℚ) :
    ∀ (fuel m j : ℕ) (w : ℚ),
      (waitsOf (retryInner op rand N c fuel ((m : ℤ) + 1) (schedDelay b c m))).get? j
          = some w →
      w = schedDelay b c (m + j) + rand ((m : ℤ) + 1 + (j : ℤ)) * jitterCoeff := by
  intro fuel
  induction fuel with
  | zero =>
    intro m j w h
    rw [retryInner_zero] at h
    simp at h
  | succ f ih =>
    intro m j w h
    rcases hop : op ((m : ℤ) + 1) with e | v
    · by_cases hfin : ((m : ℤ) + 1) = N
      · rw [retryInner_lastfail op rand N c f _ _ e hop hfin] at h
        simp at h
      · rw [retryInner_stepfail op rand N c f _ _ e hop hfin] at h
        simp only [waitsOf_mk, waitList_att, waitList_wait] at h
        cases j with
        | zero =>
          simp only [List.get?_cons_zero, Option.some.injEq] at h
          simp [← h]
        | succ j' =>
          rw [List.get?_cons_succ] at h
          have hmin : min (schedDelay b c m * 2) c = schedDelay b c (m + 1) := rfl
          rw [hmin] at h
          have hcast : (m : ℤ) + 1 + 1 = ((m + 1 : ℕ) : ℤ) + 1 := by push_cast; ring
          rw [hcast] at h
          have hrec := ih (m + 1) j' w h
          have h1 : (m + 1) + j' = m + (j' + 1) := by omega
          have h2 : ((m + 1 : ℕ) : ℤ) + 1 + (j' : ℤ)
              = (m : ℤ) + 1 + ((j' + 1 : ℕ) : ℤ) := by push_cast; ring
          rw [h1, h2] at hrec
          exact hrec
    · rw [retryInner_ok op rand N c f _ _ v hop] at h
      simp at h

/-- Closed form of the backoff schedule when `0 < base ≤ cap`. -/
theorem schedDelay_closed (b c : ℚ) (hb : 0 < b) (hbc : b ≤ c) :
    ∀ n : ℕ, schedDelay b c n = min (2 ^ n * b) c := by
  intro n
  induction n with
  | zero =>
    simp only [schedDelay, pow_zero, one_mul]
    exact (min_eq_left hbc).symm
  | succ n ih =>
    rw [schedDelay, ih]
    rcases le_total (2 ^ n * b) c with h | h
    · rw [min_eq_left h]
      congr 1
      ring
    · have hc0 : 0 ≤ c := le_trans hb.le hbc
      have h2 : (2:ℚ) ^ (n + 1) * b = 2 * (2 ^ n * b) := by ring
      rw [min_eq_right h, min_eq_right (by linarith), min_eq_right (by linarith)]

/-- The backoff schedule never decreases when `0 < base ≤ cap`. -/
theorem schedDelay_mono (b c : ℚ) (hb : 0 < b) (hbc : b ≤ c) (n : ℕ) :
    schedDelay b c n ≤ schedDelay b c (n + 1) := by
  rw [schedDelay_closed b c hb hbc n, schedDelay_closed b c hb hbc (n + 1)]
  refine min_le_min ?_ le_rfl
  have hpow : (0:ℚ) < 2 ^ n := by positivity
  have h2 : (2:ℚ) ^ (n + 1) * b = 2 * (2 ^ n * b) := by ring
  have h3 : (0:ℚ) < 2 ^ n * b := mul_pos hpow hb
  linarith

/-- The backoff schedule never exceeds the cap when `0 < base ≤ cap`. -/
theorem schedDelay_le_cap (b c : ℚ) (hb : 0 < b) (hbc : b ≤ c) (n : ℕ) :
    schedDelay b c n ≤ c := by
  rw [schedDelay_closed b c hb hbc n]
  exact min_le_right _ _

/-- Sleeps of a full wrapper call follow the schedule started at `base`. -/
theorem retry_waits_sched (N : ℤ) (b c : ℚ) (op : ℤ → Except ε α)
    (rand : ℤ → ℚ) (j : ℕ) (w : ℚ)
    (h : (waitsOf (retry N b c op rand)).get? j = some w) :
    w = schedDelay b c j + rand ((j : ℤ) + 1) * jitterCoeff := by
  have h' : (waitsOf (retryInner op rand N c N.toNat (((0 : ℕ) : ℤ) + 1)
      (schedDelay b c 0))).get? j = some w := h
  have hrec := retryInner_waits_sched op rand N b c N.toNat 0 j w h'
  have harg : ((0 : ℕ) : ℤ) + 1 + (j : ℤ) = (j : ℤ) + 1 := by push_cast; ring
  rw [harg] at hrec
  simpa using hrec

/-- Claim C1: for every `max_attempts = N ≥ 1` and every remote operation that
fails on every attempt, the wrapper invokes the underlying operation exactly
`N` times and the failure it propagates is exactly the failure produced by the
`N`-th attempt. -/
theorem retry_allfail_calls_and_error {ε α : Type} (N : ℤ) (base cap : ℚ)
    (op : ℤ → Except ε α) (err : ℤ → ε) (rand : ℤ → ℚ)
    (hN : 1 ≤ N)
    (hfail : ∀ i : ℤ, 1 ≤ i → i ≤ N → op i = Except.error (err i)) :
    (retry N base cap op rand).outcome = some (Except.error (err N)) ∧
      (callsOf (retry N base cap op rand) : ℤ) = N := by
  have h := retryInner_allfail op err rand N cap N.toNat 1 base (by omega)
    (by omega) (fun i h1 h2 => hfail i h1 h2)
  refine ⟨h.1, ?_⟩
  show (callsOf (retryInner op rand N cap N.toNat 1 base) : ℤ) = N
  rw [h.2.1]
  omega

/-- Witness for C1 at `N = 2` with the always-failing operation whose `i`-th
failure is the value `i`: two calls, and the propagated failure is `2`. -/
theorem retry_allfail_calls_and_error_witness :
    (retry 2 1 8 opFailW randZeroW).outcome = some (Except.error 2) ∧
      (callsOf (retry 2 1 8 opFailW randZeroW) : ℤ) = 2 :=
  retry_allfail_calls_and_error 2 1 8 opFailW (fun i => i) randZeroW
    (by norm_num) (fun i h1 h2 => rfl)

/-- Claim C2: if the operation fails on attempts `1..k-1` and succeeds on
attempt `k ≤ N`, the wrapper makes exactly `k` calls and returns the `k`-th
attempt's result; no later attempt occurs. -/
theorem retry_success_at_k {ε α : Type} (N k : ℤ) (base cap : ℚ)
    (op : ℤ → Except ε α) (v : α) (rand : ℤ → ℚ)
    (hN : 2 ≤ N) (hk1 : 1 ≤ k) (hkN : k ≤ N)
    (hpre : ∀ i : ℤ, 1 ≤ i → i < k → ∃ e, op i = Except.error e)
    (hok : op k = Except.ok v) :
    (retry N base cap op rand).outcome = some (Except.ok v) ∧
      (callsOf (retry N base cap op rand) : ℤ) = k := by
  have h := retryInner_firstok op rand N cap k v N.toNat 1 base hk1 hkN
    (by omega) (fun i h1 h2 => hpre i h1 h2) hok
  refine ⟨h.1, ?_⟩
  show (callsOf (retryInner op rand N cap N.toNat 1 base) : ℤ) = k
  have h2 := h.2
  omega

/-- Witness for C2 at `N = 3`, success on attempt `k = 2`: two calls and the
success value is returned. -/
theorem retry_success_at_k_witness :
    (retry 3 1 8 opOkAt2W randZeroW).outcome = some (Except.ok "ok") ∧
      (callsOf (retry 3 1 8 opOkAt2W randZeroW) : ℤ) = 2 :=
  retry_success_at_k 3 2 1 8 opOkAt2W "ok" randZeroW (by norm_num)
    (by norm_num) (by norm_num)
    (fun i h1 h2 => ⟨i, by simp only [opOkAt2W, if_neg (by omega : ¬ i = 2)]⟩)
    (by norm_num [opOkAt2W])

/-- Claim C4: failures on attempts `1..N-1` are absorbed and any failure the
wrapper surfaces is exactly the failure object of attempt `N`, unchanged:
whenever a run's outcome is a failure `e`, the `N`-th attempt produced
exactly `e` (and all `N` attempts ran, so no earlier failure was surfaced). -/
theorem retry_error_is_final {ε α : Type} (N : ℤ) (base cap : ℚ)
    (op : ℤ → Except ε α) (rand : ℤ → ℚ) (e : ε)
    (hN : 1 ≤ N)
    (hout : (retry N base cap op rand).outcome = some (Except.error e)) :
    op N = Except.error e ∧ (callsOf (retry N base cap op rand) : ℤ) = N := by
  have h := retryInner_error_from_last op rand N cap e N.toNat 1 base
    (by omega) hout
  refine ⟨h.1, ?_⟩
  show (callsOf (retryInner op rand N cap N.toNat 1 base) : ℤ) = N
  rw [h.2]
  omega

/-- Witness for C4: the failing run at `N = 2` surfaces the failure `2`, which
is indeed the failure of attempt 2, after two calls. -/
theorem retry_error_is_final_witness :
    opFailW 2 = Except.error 2 ∧
      (callsOf (retry 2 1 8 opFailW randZeroW) : ℤ) = 2 := by
  have h := retry_error_is_final 2 1 8 opFailW randZeroW 2 (by norm_num)
    (by norm_num [retry, retryInner, opFailW])
  exact ⟨h.1, h.2⟩

/-- Claim C5: with `N ≥ 1`, no sleep happens before the first attempt and no
sleep happens after the final attempt, whatever its outcome: the first trace
event is the invocation of attempt 1 and the last trace event is an
invocation, never a sleep. -/
theorem retry_no_wait_before_first_or_after_last {ε α : Type} (N : ℤ)
    (base cap : ℚ) (op : ℤ → Except ε α) (rand : ℤ → ℚ) (hN : 1 ≤ N) :
    (∃ r, (retry N base cap op rand).trace.head? = some (Ev.att 1 r)) ∧
      (∃ i r, (retry N base cap op rand).trace.getLast? = some (Ev.att i r)) :=
  ⟨retryInner_head op rand N cap N.toNat 1 base (by omega),
   retryInner_last op rand N cap N.toNat 1 base (by omega) (by omega)⟩

/-- Witness for C5 at `N = 1` with an immediately succeeding operation. -/
theorem retry_no_wait_before_first_or_after_last_witness :
    (∃ r, (retry 1 1 8 opOkW randZeroW).trace.head? = some (Ev.att 1 r)) ∧
      (∃ i r, (retry 1 1 8 opOkW randZeroW).trace.getLast?
          = some (Ev.att i r)) :=
  retry_no_wait_before_first_or_after_last 1 1 8 opOkW randZeroW (by norm_num)

/-- Claim C6: under the precondition `max_attempts ≥ 1`, every run produces an
outcome — the fall-through path returning `None` is unreachable — and an
error outcome is never an intermediate failure: it is always the failure of
the final attempt `N`. -/
theorem retry_exactly_one_outcome {ε α : Type} (N : ℤ) (base cap : ℚ)
    (op : ℤ → Except ε α) (rand : ℤ → ℚ) (hN : 1 ≤ N) :
    (∃ res, (retry N base cap op rand).outcome = some res) ∧
      ∀ e : ε, (retry N base cap op rand).outcome = some (Except.error e) →
        op N = Except.error e := by
  refine ⟨retryInner_isSome op rand N cap N.toNat 1 base (by omega) (by omega),
    fun e hout => ?_⟩
  exact (retryInner_error_from_last op rand N cap e N.toNat 1 base
    (by omega) hout).1

/-- Witness for C6 at `N = 1`. -/
theorem retry_exactly_one_outcome_witness :
    (∃ res, (retry 1 1 8 opOkW randZeroW).outcome = some res) ∧
      ∀ e : ℤ, (retry 1 1 8 opOkW randZeroW).outcome = some (Except.error e) →
        opOkW 1 = Except.error e :=
  retry_exactly_one_outcome 1 1 8 opOkW randZeroW (by norm_num)

/-- Claim C9: constructed with `max_attempts ≤ 0`, the wrapper performs zero
invocations of the operation, performs no sleep, and produces `None` rather
than a success or a failure. -/
theorem retry_nonpositive_yields_none {ε α : Type} (N : ℤ) (base cap : ℚ)
    (op : ℤ → Except ε α) (rand : ℤ → ℚ) (hN : N ≤ 0) :
    (retry N base cap op rand).outcome = none ∧
      callsOf (retry N base cap op rand) = 0 ∧
      waitsOf (retry N base cap op rand) = [] := by
  have h0 : N.toNat = 0 := by omega
  show (retryInner op rand N cap N.toNat 1 base).outcome = none ∧
      callsOf (retryInner op rand N cap N.toNat 1 base) = 0 ∧
      waitsOf (retryInner op rand N cap N.toNat 1 base) = []
  rw [h0, retryInner_zero]
  exact ⟨rfl, rfl, rfl⟩

/-- Witness for C9 at `N = 0`. -/
theorem retry_nonpositive_yields_none_witness :
    (retry 0 1 8 opFailW randZeroW).outcome = none ∧
      callsOf (retry 0 1 8 opFailW randZeroW) = 0 ∧
      waitsOf (retry 0 1 8 opFailW randZeroW) = [] :=
  retry_nonpositive_yields_none 0 1 8 opFailW randZeroW (by norm_num)

/-- Claim C3 (amended): for every positive base `b` and cap `c` with `b ≤ c`,
the pre-jitter delay sequence the wrapper sleeps between consecutive failed
attempts is `b, min(2b,c), min(4b,c), ...`, monotonically non-decreasing and
bounded by `c`; and every actual sleep of any run equals the corresponding
scheduled delay plus the jitter of that step's random draw.  (When `b > c`
the first delay is `b`, unclamped, and the claim fails: see the
counterexample.) -/
theorem retry_backoff_schedule (b c : ℚ) (hb : 0 < b) (hbc : b ≤ c) :
    (∀ n : ℕ, schedDelay b c n = min (2 ^ n * b) c) ∧
      (∀ n : ℕ, schedDelay b c n ≤ schedDelay b c (n + 1)) ∧
      (∀ n : ℕ, schedDelay b c n ≤ c) ∧
      (∀ (ε α : Type) (N : ℤ) (op : ℤ → Except ε α) (rand : ℤ → ℚ)
        (j : ℕ) (w : ℚ),
        (waitsOf (retry N b c op rand)).get? j = some w →
        w = schedDelay b c j + rand ((j : ℤ) + 1) * jitterCoeff) :=
  ⟨schedDelay_closed b c hb hbc, schedDelay_mono b c hb hbc,
   schedDelay_le_cap b c hb hbc,
   fun _ _ N op rand j w h => retry_waits_sched N b c op rand j w h⟩

/-- Witness for the amended C3 at `b = 1`, `c = 8`. -/
theorem retry_backoff_schedule_witness :
    schedDelay 1 8 0 = min (2 ^ 0 * 1) 8 ∧ schedDelay 1 8 4 ≤ 8 :=
  ⟨(retry_backoff_schedule 1 8 (by norm_num) (by norm_num)).1 0,
   (retry_backoff_schedule 1 8 (by norm_num) (by norm_num)).2.2.1 4⟩

/-- Claim C3 counterexample: with `base = 10 > cap = 8` (both positive) the
wrapper's actual pre-jitter delays across three failing attempts are
`[10, 8]`: the first delay exceeds the cap and the sequence decreases,
refuting boundedness and monotonicity as stated for all positive `b`, `c`. -/
theorem retry_backoff_schedule_counterexample :
    ((0:ℚ) < 10 ∧ (0:ℚ) < 8) ∧
      waitsOf (retry 3 10 8 opFailW randZeroW) = [10, 8] ∧
      schedDelay 10 8 0 = 10 ∧ schedDelay 10 8 1 = 8 ∧ ¬ ((10:ℚ) ≤ 8) := by
  refine ⟨⟨by norm_num, by norm_num⟩, ?_, rfl, ?_, by norm_num⟩
  · norm_num [retry, retryInner, opFailW, randZeroW, jitterCoeff, waitsOf,
      waitList, Ev.waitVal, List.filterMap]
  · norm_num [schedDelay]

/-- Claim C7 (amended): the decorator recognizes no `jitter_max` option; the
jitter bound is the fixed constant 0.2 of line 63.  For random draws in
`[0, 1)` — as `random.random()` guarantees — every actual sleep lies in
`[scheduled_delay, scheduled_delay + 0.2)`. -/
theorem retry_wait_within_fixed_jitter {ε α : Type} (N : ℤ) (b c : ℚ)
    (op : ℤ → Except ε α) (rand : ℤ → ℚ)
    (hr : ∀ i : ℤ, 0 ≤ rand i ∧ rand i < 1) (j : ℕ) (w : ℚ)
    (h : (waitsOf (retry N b c op rand)).get? j = some w) :
    waitWithinJitter jitterCoeff (schedDelay b c j) w := by
  have hw := retry_waits_sched N b c op rand j w h
  obtain ⟨h0, h1⟩ := hr ((j : ℤ) + 1)
  simp only [waitWithinJitter]
  constructor
  · have hnn : 0 ≤ rand ((j : ℤ) + 1) * jitterCoeff :=
      mul_nonneg h0 (by norm_num [jitterCoeff])
    linarith [hw]
  · have hlt : rand ((j : ℤ) + 1) * jitterCoeff < 1 * jitterCoeff :=
      mul_lt_mul_of_pos_right h1 (by norm_num [jitterCoeff])
    rw [one_mul] at hlt
    linarith [hw]

/-- Witness for the amended C7: in the two-attempt failing run with draw 1/2,
the single sleep is 1.1 seconds, inside `[1, 1.2)`. -/
theorem retry_wait_within_fixed_jitter_witness :
    waitWithinJitter jitterCoeff (schedDelay 1 8 0) (11/10) := by
  apply retry_wait_within_fixed_jitter 2 1 8 opFailW randHalfW
    (fun i => ⟨by norm_num [randHalfW], by norm_num [randHalfW]⟩) 0 (11/10)
  norm_num [retry, retryInner, opFailW, randHalfW, jitterCoeff, waitsOf,
    waitList, Ev.waitVal, List.filterMap]

/-- Claim C7 counterexample: the source's `retry` has no `jitter_max`
parameter — its jitter bound is immutably 0.2 — so the claimed interval
fails for the admissible configured value `jitter_max = 0.1`: with the legal
random draw 1/2, the actual wait after scheduled delay 1 is 1.1, which is
not in `[1, 1 + 0.1)`. -/
theorem retry_jitter_not_configurable_counterexample :
    (0 ≤ randHalfW 1 ∧ randHalfW 1 < 1) ∧
      waitsOf (retry 2 1 8 opFailW randHalfW) = [11/10] ∧
      ¬ waitWithinJitter (1/10) 1 (11/10) := by
  refine ⟨⟨by norm_num [randHalfW], by norm_num [randHalfW]⟩, ?_, ?_⟩
  · norm_num [retry, retryInner, opFailW, randHalfW, jitterCoeff, waitsOf,
      waitList, Ev.waitVal, List.filterMap]
  · simp only [waitWithinJitter]
    rintro ⟨-, hB⟩
    norm_num at hB

/-- Half-to-even rounding moves a value by at most 1/2. -/
theorem roundHalfEven_close (y : ℚ) : |(roundHalfEven y : ℚ) - y| ≤ 1/2 := by
  have h0 : (⌊y⌋ : ℚ) ≤ y := Int.floor_le y
  have h1 : y < ⌊y⌋ + 1 := Int.lt_floor_add_one y
  unfold roundHalfEven
  split_ifs with hf1 hf2 hne
  · rw [abs_le]; constructor <;> linarith
  · rw [abs_le]; push_cast; constructor <;> linarith
  · rw [abs_le]; constructor <;> linarith
  · rw [abs_le]; push_cast; constructor <;> linarith

/-- `round(x, 2)` moves a value by at most 1/200 (half of 0.01). -/
theorem pythonRound2_close (x : ℚ) : |pythonRound2 x - x| ≤ 1/200 := by
  have h := roundHalfEven_close (x * 100)
  unfold pythonRound2
  have heq : (roundHalfEven (x * 100) : ℚ) / 100 - x
      = ((roundHalfEven (x * 100) : ℚ) - x * 100) / 100 := by ring
  rw [heq, abs_div, abs_of_pos (show (0:ℚ) < 100 by norm_num)]
  linarith

/-- Claim C8 (amended): with both timestamps present, the derived SLA of the
read path equals exactly `(completion - start) / 3600` hours, while the
stored SLA of the write path is that exact value rounded (half to even) to
two decimals — within 1/200 of it; with either timestamp missing, the write
path stores no SLA and the read path computes none (the stored cell passes
through unchanged). -/
theorem sla_hours_exact_and_rounded (s e : ℤ) (stored : Option ℚ) :
    slaDerived (some s) (some e) stored = some (((e - s : ℤ) : ℚ) / 3600) ∧
      slaStored (some e) s = some (pythonRound2 (((e - s : ℤ) : ℚ) / 3600)) ∧
      |pythonRound2 (((e - s : ℤ) : ℚ) / 3600) - ((e - s : ℤ) : ℚ) / 3600|
        ≤ 1/200 ∧
      slaStored none s = none ∧
      slaDerived none (some e) stored = stored ∧
      slaDerived (some s) none stored = stored :=
  ⟨rfl, rfl, pythonRound2_close _, rfl, rfl, rfl⟩

/-- Claim C8 counterexample: a ticket whose start and completion are 60
seconds apart has elapsed time 1/60 hour, but the stored `SLA_gio` of the
write path is `round(1/60, 2) = 0.02 = 1/50 ≠ 1/60`: the stored value does
not equal the elapsed seconds divided by 3600. -/
theorem sla_stored_not_exact_counterexample :
    slaStored (some 60) 0 = some (1/50)
      ∧ ((1:ℚ)/50) ≠ ((60 - 0 : ℤ) : ℚ) / 3600 := by
  constructor
  · show some (pythonRound2 (((60 - 0 : ℤ) : ℚ) / 3600)) = some (1/50)
    have h1 : (((60 - 0 : ℤ) : ℚ) / 3600) = 1/60 := by norm_num
    rw [h1]
    unfold pythonRound2 roundHalfEven
    rw [show (1:ℚ)/60 * 100 = 5/3 by norm_num]
    have hfl : ⌊(5/3 : ℚ)⌋ = 1 := by
      rw [Int.floor_eq_iff]
      constructor <;> norm_num
    rw [hfl]
    norm_num
  · norm_num

/-- Claim C10 counterexample: the wall time 1947-04-01 00:30 (a valid date
and time) lies in the hour skipped by the zone's +07 → +08 transition of
1947-04-01; converting it to UTC and back yields 01:30, not 00:30, so the
round trip is not the identity for every calendar date and time. -/
theorem local_to_utc_roundtrip_counterexample :
    (PDate.mk 1947 4 1).valid ∧ (PTime.mk 0 30 0).valid ∧
      utcToVnWall (local_to_utc ⟨1947, 4, 1⟩ ⟨0, 30, 0⟩)
        = (⟨1947, 4, 1⟩, ⟨1, 30, 0⟩) ∧
      (PTime.mk 1 30 0) ≠ PTime.mk 0 30 0 := by
  refine ⟨by decide, by decide, by decide, by decide⟩

/-- Claim C10 (amended): for every wall-clock instant from 1975-06-13 (local)
onward — the era in which `Asia/Ho_Chi_Minh` has the constant offset
+07:00 — the UTC conversion is bijective on instants: converting the
produced UTC instant back to the zone recovers exactly the original local
wall-clock instant, hence the original date and time of day.  (Wall times
inside one of the zone's historical spring-forward gaps, such as 1947-04-01
00:00-00:59, are shifted instead: see the counterexample.) -/
theorem local_to_utc_roundtrip_modern (d : PDate) (t : PTime)
    (hge : wallSecs ⟨1975, 6, 13⟩ ⟨0, 0, 0⟩ ≤ wallSecs d t) :
    local_to_utc d t + vnOffsetAtUtc (local_to_utc d t) = wallSecs d t ∧
      utcToVnWall (local_to_utc d t) = secsToWall (wallSecs d t) := by
  have hW : wallSecs ⟨1975, 6, 13⟩ ⟨0, 0, 0⟩ = 171849600 := by decide
  rw [hW] at hge
  have how : vnOffsetAtWall (wallSecs d t) = 25200 := by
    unfold vnOffsetAtWall
    split_ifs <;> omega
  have hloc : local_to_utc d t = wallSecs d t - 25200 := by
    unfold local_to_utc
    rw [how]
  have hou : vnOffsetAtUtc (wallSecs d t - 25200) = 25200 := by
    unfold vnOffsetAtUtc
    split_ifs <;> omega
  constructor
  · rw [hloc, hou]
    ring
  · unfold utcToVnWall
    rw [hloc, hou]
    congr 1
    ring

/-- Witness for the amended C10: 2024-01-15 12:00 local round-trips through
UTC to exactly the same date and time. -/
theorem local_to_utc_roundtrip_modern_witness :
    wallSecs ⟨1975, 6, 13⟩ ⟨0, 0, 0⟩ ≤ wallSecs ⟨2024, 1, 15⟩ ⟨12, 0, 0⟩ ∧
      utcToVnWall (local_to_utc ⟨2024, 1, 15⟩ ⟨12, 0, 0⟩)
        = (⟨2024, 1, 15⟩, ⟨12, 0, 0⟩) := by
  refine ⟨by decide, ?_⟩
  have h := (local_to_utc_roundtrip_modern ⟨2024, 1, 15⟩ ⟨12, 0, 0⟩
    (by decide)).2
  rw [h]
  decide
